import Mathlib

/-!
Verification of the abkhazia Wall Street Journal corpus preparator
(src/abkhazia/corpora/prepare_wsj.py and
src/abkhazia/corpora/utils/abstract_preparator.py).

Python strings are modelled as lists of characters (`PyStr`).  Python
operations that can raise a runtime exception (out-of-range indexing,
failed regex `.group` on `None`, tuple-unpacking of a split) are
modelled with `Option` or a pair carrying an error flag: `none` /
`some err` means the Python code raises at that point.
-/

abbrev PyStr := List Char

/-- Python `s.upper()` (ASCII case mapping, as used on WSJ transcripts). -/
def pyUpper (s : PyStr) : PyStr := s.map Char.toUpper

/-- Python `s.replace('\\', '')`: remove every backslash. -/
def stripBackslashes (s : PyStr) : PyStr := s.filter (fun c => c ≠ '\\')

/-- Helper for Python `s.replace(old, new)` with nonempty `old`: scan left to
right, replacing each non-overlapping occurrence.  The `Nat` argument is
fuel; every step consumes at least one character, so fuel `s.length`
is exactly sufficient. -/
def listReplaceAux (old new : PyStr) : Nat → PyStr → PyStr
  | 0, s => s
  | _ + 1, [] => []
  | fuel + 1, c :: rest =>
    if old.isPrefixOf (c :: rest) ∧ 0 < old.length then
      new ++ listReplaceAux old new fuel (rest.drop (old.length - 1))
    else
      c :: listReplaceAux old new fuel rest

/-- Python `s.replace(old, new)` for nonempty `old`. -/
def listReplace (old new s : PyStr) : PyStr := listReplaceAux old new s.length s

/-- Python `str.strip()` whitespace set (the ASCII whitespace characters). -/
def pyIsSpace (c : Char) : Bool :=
  c = ' ' ∨ c = '\t' ∨ c = '\n' ∨ c = '\r' ∨ c = '\x0b' ∨ c = '\x0c'

/-- Python `s.strip()`: drop whitespace from both ends. -/
def pyStrip (s : PyStr) : PyStr :=
  ((s.dropWhile pyIsSpace).reverse.dropWhile pyIsSpace).reverse

/-- Helper for Python `s.split(sep)` with nonempty `sep` (fuel-based like
`listReplaceAux`; `acc` holds the chars of the current field, reversed). -/
def pySplitAux (sep : PyStr) : Nat → PyStr → PyStr → List PyStr
  | 0, acc, _ => [acc.reverse]
  | _ + 1, acc, [] => [acc.reverse]
  | fuel + 1, acc, c :: rest =>
    if sep.isPrefixOf (c :: rest) ∧ 0 < sep.length then
      acc.reverse :: pySplitAux sep fuel [] (rest.drop (sep.length - 1))
    else
      pySplitAux sep fuel (c :: acc) rest

/-- Python `s.split(sep)` for a nonempty separator. -/
def pySplitOn (sep s : PyStr) : List PyStr := pySplitAux sep s.length [] s

/-- Python `os.path.basename` (for paths with '/' separators). -/
def pyBasename (s : PyStr) : PyStr := (s.reverse.takeWhile (fun c => c ≠ '/')).reverse

/-- Python join of a word list with single spaces, `' '.join(ws)`. -/
def joinSpace : List PyStr → PyStr
  | [] => []
  | [w] => w
  | w :: ws => w ++ ' ' :: joinSpace ws

/-!
The token normalizer `WallStreetJournalPreparator.correct_word`
(prepare_wsj.py lines 148-175), transcribed statement by statement.
Python evaluation order and short-circuiting are preserved: `word[0]`
(`List.head?` here) raises `IndexError` on an empty string, which this
model returns as `none`.  Note that in the source the two conditions
`word[:1] == '[<'` and `word[:1] == '[/'` compare a length-one slice
with a two-character literal; that comparison is kept verbatim.
-/

/-- Model of `correct_word` on character lists.  `none` means the Python
function raises a runtime error at the corresponding point. -/
def correctWordChars (w : PyStr) : Option PyStr :=
  if w = [] then some [] else
  let w1 := stripBackslashes (pyUpper w)
  let w2 := listReplace ('%' :: "PERCENT".toList) "PERCENT".toList w1
  let w3 := listReplace ('.' :: "POINT".toList) "POINT".toList w2
  match w3.head? with
  | none => none
  | some c0 =>
    let w4 := if c0 = '<' ∧ w3.getLast? = some '>'
              then (w3.drop 1).take (w3.length - 2) else w3
    if w4 = ['~'] ∨ w4 = ['.'] then some [] else
    if w4.take 1 = ['[', '<'] ∧ w4.getLast? = some ']' then some [] else
    match w4.head? with
    | none => none
    | some d0 =>
      if (d0 = '[' ∧ w4.drop (w4.length - 2) = ['>', ']']) ∨
         (d0 = '[' ∧ w4.drop (w4.length - 2) = ['/', ']']) ∨
         (w4.take 1 = ['[', '/'] ∧ w4.getLast? = some ']') then some [] else
      if d0 = '[' ∧ w4.getLast? = some ']' then some "<noise>".toList else
      if w4 = "--DASH".toList then some "-DASH".toList else
      some w4

/-- String-level wrapper of `correct_word`. -/
def correct_word (s : String) : Option String :=
  (correctWordChars s.toList).map (fun l => String.mk l)

/-!
Model of Python `re.match(r'(.*) \((.*)\)', line)` used both in
`WallStreetJournalPreparator.__init__` (corrupted-utterance scan,
lines 219-228) and in `make_transcription` (lines 268-296).  `.` does
not match a newline, `re.match` anchors at the start only, and both
`(.*)` groups are greedy: the first group ends at the last position
where a space and an opening parenthesis are followed (somewhere
later on the line) by a closing parenthesis; the second group then
extends to the last closing parenthesis of the line. -/
def pyMatchGroups (line : PyStr) : Option (PyStr × PyStr) :=
  let L := line.takeWhile (fun c => c ≠ '\n')
  let iCands := (List.range L.length).filter (fun i =>
    L.get? i == some ' ' && L.get? (i + 1) == some '(' && (L.drop (i + 2)).contains ')')
  match iCands.getLast? with
  | none => none
  | some i =>
    let jCands := (List.range L.length).filter (fun j =>
      decide (i + 1 < j) && L.get? j == some ')')
    match jCands.getLast? with
    | none => none
    | some j => some (L.take i, (L.drop (i + 2)).take (j - (i + 2)))

/-- Group 2 of the match alone (the utterance id). -/
def pyMatchGroup2 (line : PyStr) : Option PyStr := (pyMatchGroups line).map (·.2)

/-- The corruption marker literal searched for in transcription lines. -/
def badRecMarker : PyStr := "[bad_recording]".toList

/-- Python substring test `pat in s`. -/
def containsSub (pat s : PyStr) : Bool :=
  (List.range (s.length + 1)).any (fun i => pat.isPrefixOf (s.drop i))

deriving instance DecidableEq for Except

/-- Model of the corrupted-utterance scan of
`WallStreetJournalPreparator.__init__` (lines 219-228): every line of
every selected transcription file is tested for the marker; on a hit
the utterance id is group 2 of the regex match.  When the regex does
not match, Python raises `AttributeError` on `None.group`; the model
returns `Except.error ()`. -/
def scanBadUtts : List PyStr → Except Unit (List PyStr)
  | [] => Except.ok []
  | l :: rest =>
    if containsSub badRecMarker l then
      match pyMatchGroup2 l with
      | none => Except.error ()
      | some u => (scanBadUtts rest).map (fun us => u :: us)
    else scanBadUtts rest

/-!
Model of the manifest-producing steps of `WallStreetJournalPreparator`.
Recordings and transcription lines are given by their contents
(`recs` is the list of `.wv1` file paths, `lines` the concatenated
lines of the selected `.dot` files); `bad` is `self.bad_utts`.
-/

/-- Utterance id of a recording file, `os.path.basename(sph).replace('.wv1', '')`
(`make_wavs`, line 245). -/
def uttOfRec (sph : PyStr) : PyStr := listReplace ".wv1".toList [] (pyBasename sph)

/-- Model of `make_wavs` (lines 240-251): convert each non-excluded
recording to `<utt_id>.wav` inside the initially empty `wavs_dir`,
skipping targets that already exist.  Returns the resulting contents
of `wavs_dir` (the accumulator starts empty on a fresh run). -/
def makeWavsAux (bad : List PyStr) : List PyStr → List PyStr → List PyStr
  | acc, [] => acc
  | acc, sph :: rest =>
    let u := uttOfRec sph
    if u ∈ bad then makeWavsAux bad acc rest
    else if (u ++ ".wav".toList) ∈ acc then makeWavsAux bad acc rest
    else makeWavsAux bad (acc ++ [u ++ ".wav".toList]) rest

def makeWavs (recs bad : List PyStr) : List PyStr := makeWavsAux bad [] recs

/-- Modelled from the spec: `list_directory` (imported from
`abkhazia.corpora.utils`, whose source is not under src/) enumerates
the files of a directory; per the spec the wavs directory holds "one
file per utterance ID", so it returns exactly the wav files created by
the wav step. -/
def list_directory (wavs : List PyStr) : List PyStr := wavs

/-- Model of `make_segment` (lines 253-258): utterance ids written to
segments.txt, `os.path.basename(wav).replace('.wav', '')` for each
file of the wavs directory. -/
def segmentIds (wavs : List PyStr) : List PyStr :=
  (list_directory wavs).map (fun w => listReplace ".wav".toList [] (pyBasename w))

/-- Model of `make_speaker` (lines 260-266): utterance ids written to
utt2spk.txt (the speaker id `utt_id[:3]` accompanies each). -/
def speakerIds (wavs : List PyStr) : List PyStr :=
  (list_directory wavs).map (fun w => listReplace ".wav".toList [] (pyBasename w))

/-- Normalization of the text part of a transcription line
(`make_transcription` lines 289-291): split on single spaces, map
`correct_word` over the words, keep the non-empty results joined with
single spaces.  `none` when `correct_word` raises on some word. -/
def normalizeText (text : PyStr) : Option PyStr :=
  (pySplitOn [' '] text).mapM correctWordChars |>.map
    (fun ws => joinSpace (ws.filter (fun w => w ≠ [])))

/-- Model of `make_transcription` (lines 268-296): parse each line as
`<text> (<utt_id>)` after stripping (raising, hence `none`, on a
mismatch), skip excluded utterances, and write `(utt_id, normalized
text)` pairs. -/
def makeTranscription (bad : List PyStr) : List PyStr → Option (List (PyStr × PyStr))
  | [] => some []
  | l :: rest => do
    let (t, u) ← pyMatchGroups (pyStrip l)
    if u ∈ bad then
      makeTranscription bad rest
    else do
      let txt ← normalizeText t
      let out ← makeTranscription bad rest
      pure ((u, txt) :: out)

/-- Utterance ids of all parsed transcription lines (excluded or not). -/
def trsIds (lines : List PyStr) : Option (List PyStr) :=
  lines.mapM (fun l => (pyMatchGroups (pyStrip l)).map (·.2))

/-- Utterance-id sets of the three manifests after the preparation
steps `make_wavs`; `make_segment`; `make_speaker`;
`make_transcription` have run in order on a fresh output directory:
text.txt ids, segments.txt ids, utt2spk.txt ids. -/
def prepareIds (recs lines bad : List PyStr) :
    Option (List PyStr × List PyStr × List PyStr) :=
  let wavs := makeWavs recs bad
  (makeTranscription bad lines).map
    (fun out => (out.map (·.1), segmentIds wavs, speakerIds wavs))

/-!
Model of `make_lexicon` (prepare_wsj.py lines 298-324).
-/

/-- Model of `re.match(ur'(.*)\([0-9]+\)$', word)` being a match, for the
newline-free words produced by splitting a stripped dictionary line:
the word ends in a parenthesized nonempty digit group. -/
def altPronMarker (w : PyStr) : Bool :=
  match w.reverse with
  | ')' :: rest =>
    let ds := rest.takeWhile Char.isDigit
    decide (ds ≠ []) && ((rest.drop ds.length).head? == some '(')
  | _ => false

/-- Processing of one dictionary line by `make_lexicon`: `some none`
when the line is skipped (comment or alternative pronunciation),
`some (some out)` when the line `out` is written, `none` when Python
raises (the two-space split does not yield exactly two fields, a
`ValueError` on unpacking). -/
def lexEntry (line : PyStr) : Option (Option PyStr) :=
  let l := pyStrip line
  if 3 ≤ l.length ∧ l.take 3 = ";;;".toList then some none
  else
    match pySplitOn [' ', ' '] l with
    | [w, ph] =>
      if altPronMarker w then some none
      else some (some (w ++ ' ' :: ph.filter (fun c => ¬ c.isDigit) ++ ['\n']))
    | _ => none

/-- Model of `make_lexicon`: process every dictionary line in order and
append the fixed noise entry.  The result is the full list of lines
written to lexicon.txt. -/
def makeLexicon (dict : List PyStr) : Option (List PyStr) :=
  (dict.mapM lexEntry).map (fun es => es.reduceOption ++ ["<noise> NSN\n".toList])

/-!
Model of the corpus-variant selection configuration (prepare_wsj.py
lines 91-93, 196-211, 330-379).  In Python these are class attributes;
attribute lookup on a subclass falls back to the base class when the
subclass body does not assign the name.  `JournalistReadPreparator`
assigns `dir_pattern` (a different name), so its `directory_pattern`
resolves to the base-class value `None`; the other two subclasses
assign `directory_pattern` itself.
-/

def WallStreetJournalPreparator.directory_pattern : Option (List String) := none

def WallStreetJournalPreparator.file_pattern : Option Char := none

/-- Inherited: the subclass body assigns `dir_pattern`, not
`directory_pattern`, so lookup falls back to the base class. -/
def JournalistReadPreparator.directory_pattern : Option (List String) :=
  WallStreetJournalPreparator.directory_pattern

/-- The attribute the subclass actually assigns (line 342); the selection
logic of `__init__` never reads it. -/
def JournalistReadPreparator.dir_pattern : List String := ["si_tr_j"]

def JournalistReadPreparator.file_pattern : Option Char := some 'c'

def JournalistSpontaneousPreparator.directory_pattern : Option (List String) :=
  some ["si_tr_jd"]

def JournalistSpontaneousPreparator.file_pattern : Option Char := some 's'

def MainReadPreparator.directory_pattern : Option (List String) :=
  some ["si_tr_s", "si_tr_l", "sd_tr_s", "sd_tr_l"]

def MainReadPreparator.file_pattern : Option Char := some 'c'

/-- Directory predicate built by `__init__` (lines 196-199): accept every
directory when `directory_pattern` is `None`, otherwise test list
membership. -/
def dirFilter (dp : Option (List String)) (d : String) : Bool :=
  match dp with
  | none => true
  | some pats => pats.contains d

/-- Filename predicate `filter_dot` built by `__init__` (lines 201-206):
with a file pattern set, Python evaluates `f[3]` first (`IndexError`,
hence `none`, on names shorter than 4) and then compares the `[-4:]`
slice with '.dot'. -/
def filterDot (fp : Option Char) (f : PyStr) : Option Bool :=
  match fp with
  | none => some (f.drop (f.length - 4) == ".dot".toList)
  | some c =>
    match f.get? 3 with
    | none => none
    | some c3 => some (c3 == c && f.drop (f.length - 4) == ".dot".toList)

/-- Filename predicate `filter_wv1` (lines 201-208), same shape with
extension '.wv1'. -/
def filterWv1 (fp : Option Char) (f : PyStr) : Option Bool :=
  match fp with
  | none => some (f.drop (f.length - 4) == ".wv1".toList)
  | some c =>
    match f.get? 3 with
    | none => none
    | some c3 => some (c3 == c && f.drop (f.length - 4) == ".wv1".toList)

/-!
Model of the command-line entry point `main` (prepare_wsj.py lines
384-432).  Argument parsing and preparator construction are folded
into the outcome of the prepare step; the `try` block covers the whole
body, and the `except` clause prints a fatal-error message.  The
returned pair is (printed error messages, process exit code).  The
function falls off the end in every case and never calls `sys.exit`,
so the interpreter exits with status 0.
-/

def mainRun (prep : Except String Unit) (noValidation : Bool)
    (val : Except String Unit) : List String × Nat :=
  match prep with
  | Except.error e => (["fatal error: " ++ e], 0)
  | Except.ok _ =>
    if noValidation then ([], 0)
    else
      match val with
      | Except.error e => (["fatal error: " ++ e], 0)
      | Except.ok _ => ([], 0)

/-!
Model of `AbstractPreparator.__init__` (abstract_preparator.py lines
58-98).  The filesystem is a list of existing directory paths; each
`raise` aborts the construction, returning the filesystem as it is at
that point together with the error message.
-/

def initPreparator (fs : List String) (inputDir outputDir : String)
    (overwrite : Bool) : List String × Option String :=
  if inputDir ∉ fs then (fs, some "input directory does not exist")
  else if overwrite then
    if outputDir ∉ fs then (fs, some "rmtree: no such file or directory")
    else
      let cleared := fs.filter (fun p => ¬(p = outputDir ∨ (outputDir ++ "/").toList.isPrefixOf p.toList))
      (cleared ++ [outputDir, outputDir ++ "/data", outputDir ++ "/data/wavs",
                   outputDir ++ "/logs"], none)
  else if outputDir ∈ fs then (fs, some "output directory already exists")
  else
    (fs ++ [outputDir, outputDir ++ "/data", outputDir ++ "/data/wavs",
            outputDir ++ "/logs"], none)

/-!
Model of `WallStreetJournalPreparator.list_files` (prepare_wsj.py
lines 230-238).  A filesystem snapshot is a finite directory tree
(`FTree`, with a forest type `FForest` for the subdirectory list);
paths are lists of name components.  `walkT p t` is Python
`os.walk` on the directory `t` located at path `p`: it yields the
directory itself first, then recursively each subdirectory in order,
each entry giving the directory path, its subdirectories and its
files.
-/

mutual
inductive FTree : Type where
  | node : String → FForest → List String → FTree
  deriving DecidableEq
inductive FForest : Type where
  | fnil : FForest
  | fcons : FTree → FForest → FForest
  deriving DecidableEq
end

/-- Name of the directory. -/
def FTree.dname : FTree → String
  | .node n _ _ => n

/-- An `os.walk` entry: directory path, subdirectories, file names. -/
abbrev WalkEntry := List String × FForest × List String

mutual
def walkT (p : List String) : FTree → List WalkEntry
  | .node _ ds fs => (p, ds, fs) :: walkF p ds
def walkF (p : List String) : FForest → List WalkEntry
  | .fnil => []
  | .fcons d ds => walkT (p ++ [d.dname]) d ++ walkF p ds
end

def forestList : FForest → List FTree
  | .fnil => []
  | .fcons d ds => d :: forestList ds

/-- The inner loop of `list_files`: from the entries of an inner
`os.walk`, the files passing the file filter, joined to their
directory path. -/
def collectFiles (fileP : String → Bool) (es : List WalkEntry) : List (List String) :=
  es.flatMap (fun e => (e.2.2.filter fileP).map (fun f => e.1 ++ [f]))

/-- The body of `list_files` applied to the entries of the outer
`os.walk`: for every entry, every subdirectory passing the directory
filter is re-walked and its files collected. -/
def lfAux (dirP fileP : String → Bool) (es : List WalkEntry) : List (List String) :=
  es.flatMap (fun e =>
    ((forestList e.2.1).filter (fun d => dirP d.dname)).flatMap (fun d =>
      collectFiles fileP (walkT (e.1 ++ [d.dname]) d)))

/-- Model of `list_files(self, dir_filter, file_filter)`: `root` is the
path of `self.input_dir` and `t` its directory tree. -/
def list_files (root : List String) (t : FTree) (dirP fileP : String → Bool) :
    List (List String) :=
  lfAux dirP fileP (walkT root t)

/-- Contribution of a single outer walk entry with subdirectory forest
`ds` at path `p`. -/
def matchedTop (dirP fileP : String → Bool) (p : List String) (ds : FForest) :
    List (List String) :=
  ((forestList ds).filter (fun d => dirP d.dname)).flatMap (fun d =>
    collectFiles fileP (walkT (p ++ [d.dname]) d))

mutual
def allFiles (p : List String) : FTree → List (List String × String)
  | .node _ ds fs => fs.map (fun f => (p, f)) ++ allFilesF p ds
def allFilesF (p : List String) : FForest → List (List String × String)
  | .fnil => []
  | .fcons d ds => allFiles (p ++ [d.dname]) d ++ allFilesF p ds
end

/-- All files lying (at any depth) below the directory `t` at path `p`
whose filename passes `fileP`, as full paths. -/
def goodFiles (fileP : String → Bool) (p : List String) (t : FTree) : List (List String) :=
  ((allFiles p t).filter (fun pf => fileP pf.2)).map (fun pf => pf.1 ++ [pf.2])

mutual
/-- Modelled from the spec (section 4.2): the file paths that lie
recursively under some directory of the tree (strictly below the
root) whose name matches the directory predicate, with filenames
matching the filename predicate. -/
def specSelected (dirP fileP : String → Bool) (p : List String) : FTree → List (List String)
  | .node _ ds _ => specSelectedF dirP fileP p ds
def specSelectedF (dirP fileP : String → Bool) (p : List String) : FForest → List (List String)
  | .fnil => []
  | .fcons d ds =>
    (if dirP d.dname then goodFiles fileP (p ++ [d.dname]) d else []) ++
    specSelected dirP fileP (p ++ [d.dname]) d ++ specSelectedF dirP fileP p ds
end

/-- The two-level nesting used by the duplicate-listing counterexample:
a directory `a` containing a directory `b` containing one file. -/
def nestedTree : FTree :=
  .node "root" (.fcons (.node "a" (.fcons (.node "b" .fnil ["f.txt"]) .fnil) []) .fnil) []

/-!
Theorems.
-/

mutual
theorem collect_walkT (fileP : String → Bool) (t : FTree) (p : List String) :
    collectFiles fileP (walkT p t) = goodFiles fileP p t := by
  match t with
  | .node n ds fs =>
    have h := collect_walkF fileP ds p
    simp only [collectFiles, goodFiles, allFiles, walkT, List.flatMap_cons,
      List.filter_append, List.map_append, List.filter_map, List.map_map] at h ⊢
    rw [h]
    simp [Function.comp_def]
theorem collect_walkF (fileP : String → Bool) (ds : FForest) (p : List String) :
    collectFiles fileP (walkF p ds) =
      ((allFilesF p ds).filter (fun pf => fileP pf.2)).map (fun pf => pf.1 ++ [pf.2]) := by
  match ds with
  | .fnil => simp [walkF, collectFiles, allFilesF]
  | .fcons d rest =>
    have h1 := collect_walkT fileP d (p ++ [d.dname])
    have h2 := collect_walkF fileP rest p
    simp only [collectFiles, goodFiles, walkF, allFilesF, List.flatMap_append,
      List.filter_append, List.map_append] at h1 h2 ⊢
    rw [h1, h2]
end

theorem lfAux_walkT_node (dirP fileP : String → Bool) (n : String) (ds : FForest)
    (fs : List String) (p : List String) :
    lfAux dirP fileP (walkT p (FTree.node n ds fs)) =
      matchedTop dirP fileP p ds ++ lfAux dirP fileP (walkF p ds) := by
  simp [lfAux, walkT, matchedTop]

theorem lfAux_append (dirP fileP : String → Bool) (es es' : List WalkEntry) :
    lfAux dirP fileP (es ++ es') = lfAux dirP fileP es ++ lfAux dirP fileP es' := by
  simp [lfAux]

mutual
theorem mem_lfAux_walkT (dirP fileP : String → Bool) (t : FTree) (p : List String)
    (x : List String) :
    x ∈ lfAux dirP fileP (walkT p t) ↔ x ∈ specSelected dirP fileP p t := by
  match t with
  | .node n ds fs =>
    rw [lfAux_walkT_node, List.mem_append, specSelected]
    exact mem_lfAux_walkF dirP fileP ds p x
theorem mem_lfAux_walkF (dirP fileP : String → Bool) (ds : FForest) (p : List String)
    (x : List String) :
    (x ∈ matchedTop dirP fileP p ds ∨ x ∈ lfAux dirP fileP (walkF p ds)) ↔
      x ∈ specSelectedF dirP fileP p ds := by
  match ds with
  | .fnil => simp [matchedTop, forestList, walkF, lfAux, specSelectedF]
  | .fcons d rest =>
    have ht := mem_lfAux_walkT dirP fileP d (p ++ [d.dname]) x
    have hf := mem_lfAux_walkF dirP fileP rest p x
    have hc := collect_walkT fileP d (p ++ [d.dname])
    by_cases hd : dirP d.dname
    · simp only [matchedTop, forestList, List.filter_cons, hd, if_pos, walkF,
        lfAux_append, List.flatMap_cons, specSelectedF, List.mem_append, hc,
        if_true] at *
      tauto
    · simp only [matchedTop, forestList, List.filter_cons, hd, walkF,
        lfAux_append, specSelectedF, List.mem_append, hc, if_false,
        Bool.false_eq_true] at *
      tauto
end

/-- Claim C7, counterexample: with the tree root/a/b/f.txt and
predicates accepting every directory and file (exactly the predicates
built for the journalist-read variant), the file f.txt is returned
once for the walk entry of root (via its matching subdirectory a) and
once more for the walk entry of a (via its matching subdirectory b),
so the result is not duplicate-free and "each such path appearing
exactly once" fails. -/
theorem list_files_not_once :
    ¬ (list_files ["root"] nestedTree (fun _ => true) (fun _ => true)).Nodup ∧
    (list_files ["root"] nestedTree (fun _ => true) (fun _ => true)).count
      ["root", "a", "b", "f.txt"] = 2 := by
  constructor
  · decide
  · decide

/-- Claim C7 as amended: for every root directory tree, directory
predicate and filename predicate, `list_files` returns, at least once
each (a path may be listed once for every matching directory it lies
under, so nested matching directories produce repetitions), exactly
the file paths that lie recursively under some directory of the tree
strictly below the root whose name matches the directory predicate
and whose filenames satisfy the filename predicate; as a set the
result coincides with the specification-side selection
`specSelected`, and it is a deterministic function of the snapshot. -/
theorem list_files_set_characterization (root : List String) (t : FTree)
    (dirP fileP : String → Bool) (x : List String) :
    x ∈ list_files root t dirP fileP ↔ x ∈ specSelected dirP fileP root t := by
  rw [list_files]
  exact mem_lfAux_walkT dirP fileP t root x

/-- Claim C1: evaluation of `correct_word` on the documented rule
table.  Six of the eight entries behave as documented, but the
open-event pattern and the phenomenon-end pattern are mapped to the
noise marker instead of being dropped: the source compares the
one-character slice `word[:1]` against the two-character literals '[<'
and '[/', which is always false, so those tokens fall through to the
generic noise-bracket rule, contradicting the claim and the docstring
of `correct_word` itself. -/
theorem correct_word_rule_table :
    correct_word "[loud_breath]" = some "<noise>" ∧
    correct_word "<DELETED>" = some "DELETED" ∧
    correct_word "~" = some "" ∧
    correct_word "." = some "" ∧
    correct_word "[<door_slam]" = some "<noise>" ∧
    correct_word "[door_slam>]" = some "" ∧
    correct_word "--DASH" = some "-DASH" ∧
    correct_word "%PERCENT" = some "PERCENT" ∧
    correct_word "[/phone_ring]" = some "<noise>" ∧
    correct_word "[phone_ring/]" = some "" := by
  decide

/-- Claim C3: the token '<>' is unwrapped to the empty string, the
first two drop rules and the `word[:1] == '[<'` comparison pass
harmlessly, and then the source evaluates `word[0]` on the empty
string, raising `IndexError` (modelled by `none`): the normalizer does
not return a defined result on this token. -/
theorem correct_word_empty_unwrap_raises : correct_word "<>" = none := by
  decide

/-- Claim C6, counterexample: when preparation fails, the entry point
prints the fatal-error message but the `except` clause falls off the
end of `main` without calling `sys.exit`, so the process exit status
is 0, not non-zero as claimed. -/
theorem main_error_exit_status :
    (mainRun (Except.error "boom") false (Except.ok ())).1 = ["fatal error: boom"] ∧
    ¬ (mainRun (Except.error "boom") false (Except.ok ())).2 ≠ 0 := by
  constructor
  · rfl
  · decide

/-- Claim C6 as amended: for every run of the command-line entry
point, the process exits with status zero; when a preparation error is
raised, the fatal-error message is printed first (and the optional
validation pass runs only when preparation succeeded). -/
theorem main_always_exits_zero (prep : Except String Unit) (nv : Bool)
    (val : Except String Unit) :
    (mainRun prep nv val).2 = 0 ∧
    (∀ e, prep = Except.error e → (mainRun prep nv val).1 = ["fatal error: " ++ e]) := by
  cases prep with
  | error e => exact ⟨rfl, fun e' he => by cases he; rfl⟩
  | ok _ =>
    refine ⟨?_, fun e' he => by cases he⟩
    cases nv with
    | true => rfl
    | false => cases val <;> rfl

/-- Witness for `main_always_exits_zero` at a concrete failing run. -/
theorem main_always_exits_zero_witness :
    (mainRun (Except.error "no sph2pipe") true (Except.ok ())).2 = 0 ∧
    (mainRun (Except.error "no sph2pipe") true (Except.ok ())).1 =
      ["fatal error: no sph2pipe"] :=
  ⟨(main_always_exits_zero (Except.error "no sph2pipe") true (Except.ok ())).1,
   (main_always_exits_zero (Except.error "no sph2pipe") true (Except.ok ())).2
     "no sph2pipe" rfl⟩

/-- Claim C9: lexicon emission is a function of the dictionary file
contents alone, so two runs on equal contents produce identical
output. -/
theorem make_lexicon_deterministic (d1 d2 : List PyStr) (h : d1 = d2) :
    makeLexicon d1 = makeLexicon d2 := by
  rw [h]

/-- Witness for `make_lexicon_deterministic` on a concrete dictionary. -/
theorem make_lexicon_deterministic_witness :
    ("AIM  EY1 M".toList :: []) = ("AIM  EY1 M".toList :: []) ∧
    makeLexicon ("AIM  EY1 M".toList :: []) = makeLexicon ("AIM  EY1 M".toList :: []) :=
  ⟨rfl, make_lexicon_deterministic ("AIM  EY1 M".toList :: []) ("AIM  EY1 M".toList :: []) rfl⟩

/-- Claim C10: with overwrite not requested, initialization on a
pre-existing output directory raises and leaves the filesystem
unchanged (no data/, wavs/ or logs/ subdirectories are created,
whichever of the two `raise` points fires), while on an absent output
directory (and existing input directory) it creates the
data/wavs and logs hierarchy and reports no error. -/
theorem init_preparator_output_conflict (fs : List String) (inp outp : String) :
    (outp ∈ fs → (initPreparator fs inp outp false).2 ≠ none ∧
      (initPreparator fs inp outp false).1 = fs) ∧
    (inp ∈ fs → outp ∉ fs →
      initPreparator fs inp outp false =
        (fs ++ [outp, outp ++ "/data", outp ++ "/data/wavs", outp ++ "/logs"], none)) := by
  constructor
  · intro hout
    by_cases hin : inp ∈ fs <;> simp [initPreparator, hin, hout]
  · intro hin hout
    simp [initPreparator, hin, hout]

/-- Witness for `init_preparator_output_conflict` on concrete
filesystems. -/
theorem init_preparator_output_conflict_witness :
    ("out" ∈ ["wsj", "out"] ∧
      (initPreparator ["wsj", "out"] "wsj" "out" false).2 ≠ none ∧
      (initPreparator ["wsj", "out"] "wsj" "out" false).1 = ["wsj", "out"]) ∧
    ("wsj" ∈ ["wsj"] ∧ "out" ∉ ["wsj"] ∧
      initPreparator ["wsj"] "wsj" "out" false =
        (["wsj", "out", "out/data", "out/data/wavs", "out/logs"], none)) :=
  ⟨⟨by decide, (init_preparator_output_conflict ["wsj", "out"] "wsj" "out").1 (by decide)⟩,
   ⟨by decide, by decide,
    (init_preparator_output_conflict ["wsj"] "wsj" "out").2 (by decide) (by decide)⟩⟩

/-- Claim C5: for the journalist-read sub-variant the directory
predicate accepts every directory, because the subclass assigns
`dir_pattern` while the selection logic reads `directory_pattern`,
which stays at the base-class value `None`; only the filename
predicates (4th character equal to 'c' and extension '.dot' or
'.wv1') restrict the selection.  For the journalist-spontaneous and
main-read variants the configured directory lists do restrict the
directory predicate. -/
theorem journalist_read_dir_unrestricted :
    JournalistReadPreparator.directory_pattern = none ∧
    JournalistReadPreparator.dir_pattern = ["si_tr_j"] ∧
    (∀ d, dirFilter JournalistReadPreparator.directory_pattern d = true) ∧
    (∀ f c3, f.get? 3 = some c3 →
      filterDot JournalistReadPreparator.file_pattern f =
        some (c3 == 'c' && f.drop (f.length - 4) == ".dot".toList)) ∧
    (∀ f c3, f.get? 3 = some c3 →
      filterWv1 JournalistReadPreparator.file_pattern f =
        some (c3 == 'c' && f.drop (f.length - 4) == ".wv1".toList)) ∧
    (∀ d, dirFilter JournalistSpontaneousPreparator.directory_pattern d = true ↔
      d ∈ ["si_tr_jd"]) ∧
    (∀ d, dirFilter MainReadPreparator.directory_pattern d = true ↔
      d ∈ ["si_tr_s", "si_tr_l", "sd_tr_s", "sd_tr_l"]) := by
  refine ⟨rfl, rfl, fun d => rfl, ?_, ?_, ?_, ?_⟩
  · intro f c3 h
    have h2 : f[3]? = some c3 := by rwa [← List.get?_eq_getElem?]
    simp [filterDot, JournalistReadPreparator.file_pattern, h2]
  · intro f c3 h
    have h2 : f[3]? = some c3 := by rwa [← List.get?_eq_getElem?]
    simp [filterWv1, JournalistReadPreparator.file_pattern, h2]
  · intro d
    simp [dirFilter, JournalistSpontaneousPreparator.directory_pattern]
  · intro d
    simp [dirFilter, MainReadPreparator.directory_pattern]

/-- Witness for `journalist_read_dir_unrestricted` on a concrete
filename (4th character 'c', extension '.dot'). -/
theorem journalist_read_dir_unrestricted_witness :
    "4k0c0301.dot".toList.get? 3 = some 'c' ∧
    filterDot JournalistReadPreparator.file_pattern "4k0c0301.dot".toList =
      some (('c' == 'c') &&
        ("4k0c0301.dot".toList.drop ("4k0c0301.dot".toList.length - 4) == ".dot".toList)) :=
  ⟨by decide,
   (journalist_read_dir_unrestricted.2.2.2.1 "4k0c0301.dot".toList 'c' (by decide))⟩

/-- Claim C8: `make_lexicon` skips every dictionary word carrying a
parenthesized alternative-pronunciation index and every comment line,
and keeps unmarked entries with the digits stripped from the phone
field; on the claim's concrete lines, 'OK(1)  OW K EY1' produces no
output line while 'OK  OW K EY1' produces 'OK OW K EY'. -/
theorem make_lexicon_rules :
    makeLexicon ["OK(1)  OW K EY1".toList, "OK  OW K EY1".toList] =
      some ["OK OW K EY\n".toList, "<noise> NSN\n".toList] ∧
    lexEntry "OK(1)  OW K EY1".toList = some none ∧
    lexEntry "OK  OW K EY1".toList = some (some "OK OW K EY\n".toList) ∧
    (∀ l w ph, pySplitOn [' ', ' '] (pyStrip l) = [w, ph] → altPronMarker w = true →
      lexEntry l = some none) ∧
    (∀ l, (pyStrip l).take 3 = ";;;".toList → lexEntry l = some none) := by
  refine ⟨by decide, by decide, by decide, ?_, ?_⟩
  · intro l w ph hsplit halt
    rw [lexEntry]
    by_cases hc : 3 ≤ (pyStrip l).length ∧ (pyStrip l).take 3 = ";;;".toList
    · rw [if_pos hc]
    · rw [if_neg hc, hsplit]
      simp [halt]
  · intro l h
    have hlen : 3 ≤ (pyStrip l).length := by
      have := congrArg List.length h
      simp at this
      omega
    rw [lexEntry, if_pos ⟨hlen, h⟩]

/-- Witness for `make_lexicon_rules` on a concrete alternative
pronunciation and a concrete comment line. -/
theorem make_lexicon_rules_witness :
    (pySplitOn [' ', ' '] (pyStrip "AIM(2)  EY1 M".toList) =
      ["AIM(2)".toList, "EY1 M".toList] ∧
     altPronMarker "AIM(2)".toList = true ∧
     lexEntry "AIM(2)  EY1 M".toList = some none) ∧
    ((pyStrip ";;; comment".toList).take 3 = ";;;".toList ∧
     lexEntry ";;; comment".toList = some none) :=
  ⟨⟨by decide, by decide,
    make_lexicon_rules.2.2.2.1 "AIM(2)  EY1 M".toList "AIM(2)".toList "EY1 M".toList
      (by decide) (by decide)⟩,
   ⟨by decide, make_lexicon_rules.2.2.2.2 ";;; comment".toList (by decide)⟩⟩

/-- Claim C4: during exclusion-set construction, any transcription
line containing '[bad_recording]' either matches the
'<text> (<utterance-id>)' format, in which case its utterance id is in
the resulting exclusion list whenever the scan completes, or it does
not match, in which case the scan raises (`None.group` fails) instead
of silently skipping the line. -/
theorem scan_bad_utts_marker (lines : List PyStr) (l : PyStr) (hmem : l ∈ lines)
    (hmark : containsSub badRecMarker l = true) :
    (pyMatchGroup2 l = none → scanBadUtts lines = Except.error ()) ∧
    (∀ u ids, pyMatchGroup2 l = some u → scanBadUtts lines = Except.ok ids → u ∈ ids) := by
  induction lines with
  | nil => cases hmem
  | cons a rest ih =>
    rcases List.mem_cons.mp hmem with rfl | hmem2
    · constructor
      · intro hnone
        rw [scanBadUtts, if_pos hmark, hnone]
      · intro u ids hu hok
        rw [scanBadUtts, if_pos hmark, hu] at hok
        cases hrest : scanBadUtts rest with
        | error e => rw [hrest] at hok; cases hok
        | ok us =>
          rw [hrest] at hok
          cases hok
          exact List.mem_cons_self u us
    · have ihr := ih hmem2
      by_cases hma : containsSub badRecMarker a = true
      · cases hpa : pyMatchGroup2 a with
        | none =>
          constructor
          · intro _
            rw [scanBadUtts, if_pos hma, hpa]
          · intro u ids _ hok
            rw [scanBadUtts, if_pos hma, hpa] at hok
            cases hok
        | some ua =>
          constructor
          · intro hnone
            rw [scanBadUtts, if_pos hma, hpa, ihr.1 hnone]
            rfl
          · intro u ids hu hok
            rw [scanBadUtts, if_pos hma, hpa] at hok
            cases hrest : scanBadUtts rest with
            | error e => rw [hrest] at hok; cases hok
            | ok us =>
              rw [hrest] at hok
              cases hok
              exact List.mem_cons_of_mem ua (ihr.2 u us hu hrest)
      · constructor
        · intro hnone
          rw [scanBadUtts, if_neg hma]
          exact ihr.1 hnone
        · intro u ids hu hok
          rw [scanBadUtts, if_neg hma] at hok
          exact ihr.2 u ids hu hok

/-- Witness for `scan_bad_utts_marker`: a concrete well-formed marked
line whose id lands in the exclusion list. -/
theorem scan_bad_utts_marker_witness :
    containsSub badRecMarker "A B [bad_recording] (id42)\n".toList = true ∧
    scanBadUtts ["A B [bad_recording] (id42)\n".toList, "X Y (id1)\n".toList] =
      Except.ok ["id42".toList] ∧
    "id42".toList ∈ ["id42".toList] :=
  ⟨by decide, by decide,
   (scan_bad_utts_marker
      ["A B [bad_recording] (id42)\n".toList, "X Y (id1)\n".toList]
      "A B [bad_recording] (id42)\n".toList
      (by decide) (by decide)).2
     "id42".toList ["id42".toList] (by decide) (by decide)⟩

theorem mem_makeWavsAux (bad recs : List PyStr) : ∀ (acc : List PyStr) (w : PyStr),
    w ∈ makeWavsAux bad acc recs ↔
      w ∈ acc ∨ ∃ r ∈ recs, uttOfRec r ∉ bad ∧ w = uttOfRec r ++ ".wav".toList := by
  induction recs with
  | nil => intro acc w; simp [makeWavsAux]
  | cons sph rest ih =>
    intro acc w
    simp only [makeWavsAux]
    by_cases hb : uttOfRec sph ∈ bad
    · rw [if_pos hb, ih]
      constructor
      · rintro (h | ⟨r, hr, hnb, hw⟩)
        · exact Or.inl h
        · exact Or.inr ⟨r, List.mem_cons_of_mem _ hr, hnb, hw⟩
      · rintro (h | ⟨r, hr, hnb, hw⟩)
        · exact Or.inl h
        · rcases List.mem_cons.mp hr with rfl | hr2
          · exact absurd hb hnb
          · exact Or.inr ⟨r, hr2, hnb, hw⟩
    · rw [if_neg hb]
      by_cases hex : (uttOfRec sph ++ ".wav".toList) ∈ acc
      · rw [if_pos hex, ih]
        constructor
        · rintro (h | ⟨r, hr, hnb, hw⟩)
          · exact Or.inl h
          · exact Or.inr ⟨r, List.mem_cons_of_mem _ hr, hnb, hw⟩
        · rintro (h | ⟨r, hr, hnb, hw⟩)
          · exact Or.inl h
          · rcases List.mem_cons.mp hr with rfl | hr2
            · exact Or.inl (hw ▸ hex)
            · exact Or.inr ⟨r, hr2, hnb, hw⟩
      · rw [if_neg hex, ih]
        constructor
        · rintro (h | ⟨r, hr, hnb, hw⟩)
          · rcases List.mem_append.mp h with h2 | h2
            · exact Or.inl h2
            · exact Or.inr ⟨sph, List.mem_cons_self _ _, hb, List.mem_singleton.mp h2⟩
          · exact Or.inr ⟨r, List.mem_cons_of_mem _ hr, hnb, hw⟩
        · rintro (h | ⟨r, hr, hnb, hw⟩)
          · exact Or.inl (List.mem_append.mpr (Or.inl h))
          · rcases List.mem_cons.mp hr with rfl | hr2
            · exact Or.inl (List.mem_append.mpr (Or.inr (List.mem_singleton.mpr hw)))
            · exact Or.inr ⟨r, hr2, hnb, hw⟩

theorem mem_segmentIds (recs bad : List PyStr)
    (hclean : ∀ r ∈ recs,
      listReplace ".wav".toList [] (pyBasename (uttOfRec r ++ ".wav".toList)) = uttOfRec r)
    (u : PyStr) :
    u ∈ segmentIds (makeWavs recs bad) ↔
      ∃ r ∈ recs, uttOfRec r ∉ bad ∧ u = uttOfRec r := by
  rw [segmentIds, list_directory, makeWavs, List.mem_map]
  constructor
  · rintro ⟨w, hw, rfl⟩
    rcases (mem_makeWavsAux bad recs [] w).mp hw with h | ⟨r, hr, hnb, rfl⟩
    · cases h
    · exact ⟨r, hr, hnb, (hclean r hr).symm ▸ rfl⟩
  · rintro ⟨r, hr, hnb, rfl⟩
    exact ⟨uttOfRec r ++ ".wav".toList,
      (mem_makeWavsAux bad recs [] _).mpr (Or.inr ⟨r, hr, hnb, rfl⟩), hclean r hr⟩

theorem mem_makeTranscription_ids (bad : List PyStr) (lines : List PyStr) :
    ∀ (out : List (PyStr × PyStr)) (allIds : List PyStr),
    makeTranscription bad lines = some out → trsIds lines = some allIds →
    ∀ u, u ∈ out.map Prod.fst ↔ (u ∈ allIds ∧ u ∉ bad) := by
  induction lines with
  | nil =>
    intro out allIds hmt hids u
    rw [makeTranscription] at hmt
    rw [trsIds, List.mapM_nil] at hids
    cases hmt
    cases hids
    simp
  | cons l rest ih =>
    intro out allIds hmt hids u
    rw [trsIds, List.mapM_cons] at hids
    rw [makeTranscription] at hmt
    cases hpm : pyMatchGroups (pyStrip l) with
    | none =>
      rw [hpm] at hids
      simp at hids
    | some tu =>
      obtain ⟨t0, u0⟩ := tu
      rw [hpm] at hids hmt
      cases hrest : trsIds rest with
      | none =>
        rw [trsIds] at hrest
        rw [hrest] at hids
        simp at hids
      | some restIds =>
        rw [trsIds] at hrest
        rw [hrest] at hids
        simp at hids
        subst hids
        simp only [Option.bind_eq_bind, Option.some_bind] at hmt
        by_cases hb : u0 ∈ bad
        · rw [if_pos hb] at hmt
          have := ih out restIds hmt (by rw [trsIds]; exact hrest) u
          rw [this]
          simp only [List.mem_cons]
          constructor
          · rintro ⟨h, hnb⟩
            exact ⟨Or.inr h, hnb⟩
          · rintro ⟨h | h, hnb⟩
            · subst h; exact absurd hb hnb
            · exact ⟨h, hnb⟩
        · rw [if_neg hb] at hmt
          cases hnt : normalizeText t0 with
          | none => rw [hnt] at hmt; cases hmt
          | some txt =>
            rw [hnt] at hmt
            cases hmr : makeTranscription bad rest with
            | none => rw [hmr] at hmt; cases hmt
            | some out0 =>
              rw [hmr] at hmt
              simp at hmt
              subst hmt
              have := ih out0 restIds hmr (by rw [trsIds]; exact hrest) u
              simp only [List.map_cons, List.mem_cons, this]
              constructor
              · rintro (rfl | ⟨h, hnb⟩)
                · exact ⟨Or.inl rfl, hb⟩
                · exact ⟨Or.inr h, hnb⟩
              · rintro ⟨rfl | h, hnb⟩
                · exact Or.inl rfl
                · exact Or.inr ⟨h, hnb⟩

/-- Claim C2, counterexample: the utterance id 'a.wav' of the
recording 'a.wav.wv1' corresponds to exactly one selected recording
and one transcript line, and the run completes, yet text.txt carries
the id 'a.wav' while segments.txt and utt2spk.txt carry 'a', because
`os.path.basename(wav).replace('.wav', '')` removes every occurrence
of '.wav', not just the extension: the id sets are not equal. -/
theorem prepare_ids_dotwav_break :
    prepareIds ["a.wav.wv1".toList] ["HELLO (a.wav)\n".toList] [] =
      some (["a.wav".toList], ["a".toList], ["a".toList]) ∧
    trsIds ["HELLO (a.wav)\n".toList] = some ["a.wav".toList] ∧
    ["a.wav.wv1".toList].map uttOfRec = ["a.wav".toList] ∧
    ¬ (∀ u, u ∈ ["a.wav".toList] ↔ u ∈ ["a".toList]) := by
  refine ⟨by decide, by decide, by decide, fun hall => ?_⟩
  have h := (hall "a.wav".toList).mp (by decide)
  revert h
  decide

/-- Claim C2 as amended: after the preparation steps have run on a
fresh output directory, if every selected transcript line parses, the
transcript-line utterance ids coincide with the recording utterance
ids, and additionally stripping '.wav' from each created wav filename
recovers the utterance id exactly (no utterance id contains '/' or
the substring '.wav'), then the utterance-id set of text.txt equals
that of segments.txt and that of utt2spk.txt, and no excluded id
appears in any of the three. -/
theorem prepare_ids_consistent (recs lines bad : List PyStr)
    (txtIds segIds spkIds allIds : List PyStr)
    (hrun : prepareIds recs lines bad = some (txtIds, segIds, spkIds))
    (hids : trsIds lines = some allIds)
    (hcorr : ∀ u, u ∈ recs.map uttOfRec ↔ u ∈ allIds)
    (hclean : ∀ r ∈ recs,
      listReplace ".wav".toList [] (pyBasename (uttOfRec r ++ ".wav".toList)) = uttOfRec r) :
    (∀ u, u ∈ txtIds ↔ u ∈ segIds) ∧ spkIds = segIds ∧
    (∀ u, u ∈ bad → u ∉ txtIds ∧ u ∉ segIds ∧ u ∉ spkIds) := by
  rw [prepareIds] at hrun
  cases hmt : makeTranscription bad lines with
  | none => rw [hmt] at hrun; cases hrun
  | some out =>
    rw [hmt] at hrun
    simp only [Option.map_some', Option.some.injEq, Prod.mk.injEq] at hrun
    obtain ⟨h1, h2, h3⟩ := hrun
    have hspk : speakerIds (makeWavs recs bad) = segmentIds (makeWavs recs bad) := rfl
    have hT := mem_makeTranscription_ids bad lines out allIds hmt hids
    have hS : ∀ u, u ∈ segmentIds (makeWavs recs bad) ↔ (u ∈ allIds ∧ u ∉ bad) := by
      intro u
      rw [mem_segmentIds recs bad hclean u, ← hcorr u, List.mem_map]
      constructor
      · rintro ⟨r, hr, hnb, rfl⟩
        exact ⟨⟨r, hr, rfl⟩, hnb⟩
      · rintro ⟨⟨r, hr, rfl⟩, hnb⟩
        exact ⟨r, hr, hnb, rfl⟩
    refine ⟨?_, ?_, ?_⟩
    · intro u
      rw [← h1, ← h2, hT u, hS u]
    · rw [← h2, ← h3, hspk]
    · intro u hu
      refine ⟨?_, ?_, ?_⟩
      · rw [← h1, hT u]
        exact fun h => h.2 hu
      · rw [← h2, hS u]
        exact fun h => h.2 hu
      · rw [← h3, hspk, hS u]
        exact fun h => h.2 hu

/-- Witness for `prepare_ids_consistent` on a concrete clean run. -/
theorem prepare_ids_consistent_witness :
    (∀ u, u ∈ ["s1u1".toList] ↔ u ∈ ["s1u1".toList]) ∧
    ["s1u1".toList] = ["s1u1".toList] ∧
    (∀ u, u ∈ ([] : List PyStr) →
      u ∉ ["s1u1".toList] ∧ u ∉ ["s1u1".toList] ∧ u ∉ ["s1u1".toList]) :=
  prepare_ids_consistent ["s1u1.wv1".toList] ["HI THERE (s1u1)\n".toList] []
    ["s1u1".toList] ["s1u1".toList] ["s1u1".toList] ["s1u1".toList]
    (by decide) (by decide)
    (by
      have h : ["s1u1.wv1".toList].map uttOfRec = ["s1u1".toList] := by decide
      intro u
      rw [h])
    (by decide)
